import Mathlib

/-!
Shallow embedding of the PhotoRealCADVis rendering pipeline
(src/render.py, src/render_robust.py, src/visualize.py,
src/batch_visualize.py, src/resume_processing.py,
src/scripts/render_pipeline.py) and proofs about its
normalization, validation, backend-chain, batch/resume and
format-routing logic.

Real-number (numpy float) arithmetic is embedded as exact arithmetic;
"within floating-point tolerance" statements become exact equalities.
Most of the development is over ℚ.  trimesh's `Trimesh.centroid` is the
area-weighted average of the triangle centroids, and triangle areas
involve square roots, so the part of the model that depends on which
centroid is subtracted (the `MeshR` development below) is over ℝ with
`Real.sqrt`.  Calls into external libraries (pymeshfix, trimesh
rendering, subprocess invocations) are modelled as explicit outcome
parameters, since the repository only observes their success, failure
or returned data.
-/

/-- A 3D vertex position (a row of trimesh's vertex array). -/
structure Vec3 where
  x : ℚ
  y : ℚ
  z : ℚ
deriving DecidableEq

/-- A triangle mesh as the pipeline sees it: an ordered vertex list and
an ordered list of face index triples (trimesh.Trimesh data). -/
structure Mesh where
  vertices : List Vec3
  faces : List (ℕ × ℕ × ℕ)
deriving DecidableEq

/-- The list of one coordinate of every vertex of a mesh. -/
def coords (g : Vec3 → ℚ) (m : Mesh) : List ℚ := m.vertices.map g

/-- Maximum of a list of rationals (numpy max over a coordinate axis);
0 on the empty list, which the pipeline never queries. -/
def listMax : List ℚ → ℚ
  | [] => 0
  | a :: l => l.foldl max a

/-- Minimum of a list of rationals; 0 on the empty list. -/
def listMin : List ℚ → ℚ
  | [] => 0
  | a :: l => l.foldl min a

/-- `mesh.extents` along one axis: max minus min of that coordinate. -/
def axisExtent (l : List ℚ) : ℚ := listMax l - listMin l

/-- `max(mesh.extents)`: the largest axis-aligned bounding-box span. -/
def maxExtent (m : Mesh) : ℚ :=
  max (axisExtent (coords Vec3.x m))
    (max (axisExtent (coords Vec3.y m)) (axisExtent (coords Vec3.z m)))

/-- Arithmetic mean of a list of rationals (numpy mean). -/
def listMean (l : List ℚ) : ℚ := l.sum / l.length

/-- The centroid subtracted by this ℚ-valued pipeline model, taken as
the mean vertex position — the spec's reading of `mesh.centroid`.
trimesh's actual `Trimesh.centroid` is the area-weighted average of the
triangle centroids; it is embedded faithfully as `trimeshCentroid`
below (over ℝ, since areas involve square roots), and the theorems
proved against this ℚ-valued model are only those whose truth does not
depend on which translation- and scale-equivariant centroid is
subtracted.  Claim C1, whose conclusion measures the centroid itself,
is settled against the faithful real-valued model instead. -/
def centroid (m : Mesh) : Vec3 :=
  ⟨listMean (coords Vec3.x m), listMean (coords Vec3.y m),
    listMean (coords Vec3.z m)⟩

/-- `mesh.vertices -= mesh.centroid` (src/render.py lines 59-60). -/
def centerMesh (m : Mesh) : Mesh :=
  ⟨m.vertices.map (fun v =>
      ⟨v.x - (centroid m).x, v.y - (centroid m).y, v.z - (centroid m).z⟩),
    m.faces⟩

/-- `mesh.vertices /= max_dim` (src/render.py line 67). -/
def scaleMesh (d : ℚ) (m : Mesh) : Mesh :=
  ⟨m.vertices.map (fun v => ⟨v.x / d, v.y / d, v.z / d⟩), m.faces⟩

/-- `normalize_mesh` of src/render.py lines 50-72, with the in-place
numpy mutation made explicit: the first component is the state of the
caller's mesh object after the call, the second is the returned value
(`none` is Python `None`).  `if maxExtent _ = 0 then 1 else _` is
`max(mesh.extents) or 1.0`: Python `or` replaces a falsy 0.0 by 1.0. -/
def normalize_mesh_run (m : Mesh) : Mesh × Option Mesh :=
  if m.vertices.length < 3 then (m, none)
  else
    let m1 := centerMesh m
    let max_dim := if maxExtent m1 = 0 then 1 else maxExtent m1
    if max_dim < 1 / 1000000 then (m1, none)
    else
      let m2 := scaleMesh max_dim m1
      (m2, some m2)

/-- The value returned by `normalize_mesh`. -/
def normalize_mesh (m : Mesh) : Option Mesh := (normalize_mesh_run m).2

/-- `repair_mesh` of src/render.py lines 32-48.  The pymeshfix call is
external to the repository, so its outcome is a parameter: `some (v, f)`
when `fix.repair` returns cleaned arrays, `none` when it raises, in
which case the `except` branch returns the original mesh object. -/
def repair_mesh (fixOutcome : Option (List Vec3 × List (ℕ × ℕ × ℕ)))
    (mesh : Mesh) : Mesh :=
  match fixOutcome with
  | some vf => ⟨vf.1, vf.2⟩
  | none => mesh

/-- A rendered image, flattened to its list of pixel-channel
intensities on the 0-255 scale (the array `np.mean` averages over). -/
abbrev Image : Type := List ℚ

/-- `np.mean(img_cv)` (src/render.py line 134). -/
def mean_intensity (img : Image) : ℚ := List.sum img / List.length img

/-- The mostly-white test `np.mean(img_cv) > 240` of src/render.py
line 134; note the strict inequality. -/
def mostly_white (img : Image) : Bool := decide (mean_intensity img > 240)

/-- The quality verdict the chain applies to a backend's RenderResult:
an absent image (the backend raised, caught at its boundary) always
fails; a present image fails exactly when it is mostly white. -/
def quality_pass : Option Image → Bool
  | none => false
  | some img => !(mostly_white img)

/-- The backend chain of `render_mesh` (src/render.py lines 119-139):
the primary `scene.save_image` attempt either raises (caught, modelled
as `none`) and the chain falls back to `render_with_pyglet`, or yields
an image that is returned unless it is mostly white, in which case the
chain again falls back.  `secondary` is `render_with_pyglet`'s result,
itself an `Option Image` because that function catches all its own
exceptions and returns `None` on failure (lines 182-184). -/
def render_chain (primary secondary : Option Image) : Option Image :=
  match primary with
  | none => secondary
  | some img => if mostly_white img then secondary else some img

/-- The batch loop of src/batch_visualize.py lines 64-78.  `ok` is the
outcome of the external `process_file` subprocess for each path; `all`
is the full discovered file list; `i` the 0-based index of the file
about to be processed; the two accumulators are the lines appended so
far to file_lists/processed.txt and the failed_files list.  When the
1-based index `i + 1` is a multiple of 10 the slice
`cad_files[i-10:i]` (1-based `i`) is appended to processed.txt. -/
def batch_loop (ok : String → Bool) (all : List String) :
    List String → ℕ → List String → List String →
      List String × List String
  | [], _, processed, failed => (processed, failed)
  | f :: rest, i, processed, failed =>
    let failed2 := if ok f then failed else failed ++ [f]
    let processed2 :=
      if (i + 1) % 10 = 0 then
        processed ++ ((all.drop (i + 1 - 10)).take 10)
      else processed
    batch_loop ok all rest (i + 1) processed2 failed2

/-- `main` of src/batch_visualize.py: returns (processed.txt lines,
failed_files.txt lines) after the whole run. -/
def batch_main (ok : String → Bool) (files : List String) :
    List String × List String :=
  batch_loop ok files files 0 [] []

/-- The resume selection of src/resume_processing.py line 19:
`[f for f in all_files if f not in processed_files]`. -/
def resume_files (all processed : List String) : List String :=
  all.filter (fun f => decide (f ∉ processed))

/-- ASCII lowercasing of one character (`str.lower` on the suffix
alphabet actually used by the pipeline). -/
def lowerChar (c : Char) : Char :=
  if 65 ≤ c.toNat ∧ c.toNat ≤ 90 then Char.ofNat (c.toNat + 32) else c

/-- `str.lower()` on a whole string. -/
def lowerStr (s : String) : String := String.mk (s.toList.map lowerChar)

/-- `pathlib.Path(s).suffix` for ordinary file names: the final
dot-segment including the dot, or the empty string when the name has
no dot. -/
def fileSuffix (s : String) : String :=
  let cs := s.toList
  if cs.contains '.' then
    String.mk ('.' :: (cs.reverse.takeWhile (fun c => c ≠ '.')).reverse)
  else ""

/-- Python `s.endswith(t)`. -/
def strEndsWith (s t : String) : Bool :=
  decide (s.toList.drop (s.toList.length - t.toList.length) = t.toList)

/-- The three routes `main` of src/visualize.py can take, lines
150-159. -/
inductive VisRoute where
  | stepRoute
  | meshRoute
  | unsupported
deriving DecidableEq

/-- Format routing of src/visualize.py lines 150-159:
`file_path.suffix.lower()` against [".step", ".stp"] then
[".ply", ".obj"], else unsupported exit. -/
def visualize_route (file_path : String) : VisRoute :=
  let sfx := lowerStr (fileSuffix file_path)
  if sfx = ".step" ∨ sfx = ".stp" then VisRoute.stepRoute
  else if sfx = ".ply" ∨ sfx = ".obj" then VisRoute.meshRoute
  else VisRoute.unsupported

/-- `cad_extensions` of src/batch_visualize.py line 19. -/
def cad_extensions : List String := [".obj", ".step", ".stp", ".ply"]

/-- The discovery filter of `find_cad_files`
(src/batch_visualize.py lines 20-21): `p.suffix.lower()` membership. -/
def is_cad_file (p : String) : Bool :=
  decide (lowerStr (fileSuffix p) ∈ cad_extensions)

/-- The mesh-file selection of `process_dataset` in
src/scripts/render_pipeline.py line 91: `mesh_file.endswith('.obj')`,
with no lowercasing. -/
def pipeline_selects_mesh (f : String) : Bool := strEndsWith f ".obj"

/-- The B-Rep selection of `process_dataset` in
src/scripts/render_pipeline.py line 101: `brep_file.endswith('.stp')`. -/
def pipeline_selects_brep (f : String) : Bool := strEndsWith f ".stp"

/-!
Faithful real-valued embedding of the centering step.  trimesh's
`Trimesh.centroid` — the value `mesh.vertices -= mesh.centroid`
subtracts at src/render.py line 60 — is `np.average(triangles_center,
weights=area_faces)`: the area-weighted average of the triangle
centroids, falling back to the unweighted mean of the triangle
centroids when the weights sum to zero.  Triangle areas are Euclidean
norms of cross products, hence involve square roots, so this part of
the model lives over ℝ (`Real.sqrt`) on a real-valued mesh type.
-/

/-- A real-valued 3D vector. -/
structure Vec3R where
  x : ℝ
  y : ℝ
  z : ℝ

/-- A real-valued mesh, for the faithful area-weighted centroid. -/
structure MeshR where
  vertices : List Vec3R
  faces : List (ℕ × ℕ × ℕ)

/-- The list of one coordinate of every vertex of a real mesh. -/
def coordsR (g : Vec3R → ℝ) (m : MeshR) : List ℝ := m.vertices.map g

/-- Maximum of a list of reals; 0 on the empty list. -/
def listMaxR : List ℝ → ℝ
  | [] => 0
  | a :: l => l.foldl max a

/-- Minimum of a list of reals; 0 on the empty list. -/
def listMinR : List ℝ → ℝ
  | [] => 0
  | a :: l => l.foldl min a

/-- `mesh.extents` along one axis, over ℝ. -/
def axisExtentR (l : List ℝ) : ℝ := listMaxR l - listMinR l

/-- `max(mesh.extents)` over ℝ. -/
def maxExtentR (m : MeshR) : ℝ :=
  max (axisExtentR (coordsR Vec3R.x m))
    (max (axisExtentR (coordsR Vec3R.y m)) (axisExtentR (coordsR Vec3R.z m)))

/-- Arithmetic mean of a list of reals. -/
noncomputable def listMeanR (l : List ℝ) : ℝ := l.sum / l.length

/-- The spec's words for the claimed output quantity: "centroid (mean
vertex position)" — the unweighted mean of the vertex positions.  Kept
separate so it can be compared against what the code actually drives
to the origin. -/
noncomputable def vertexMeanR (m : MeshR) : Vec3R :=
  ⟨listMeanR (coordsR Vec3R.x m), listMeanR (coordsR Vec3R.y m),
    listMeanR (coordsR Vec3R.z m)⟩

/-- Vertex lookup by face index (trimesh indexes its vertex array with
the face's index triple; the default is never hit on in-bounds faces). -/
def vertexAtR (m : MeshR) (i : ℕ) : Vec3R := m.vertices.getD i ⟨0, 0, 0⟩

/-- trimesh `triangles_center`: the centroid of one face's triangle,
the mean of its three vertex positions. -/
noncomputable def triCenterR (m : MeshR) (f : ℕ × ℕ × ℕ) : Vec3R :=
  let a := vertexAtR m f.1
  let b := vertexAtR m f.2.1
  let c := vertexAtR m f.2.2
  ⟨(a.x + b.x + c.x) / 3, (a.y + b.y + c.y) / 3, (a.z + b.z + c.z) / 3⟩

/-- Squared Euclidean norm of the cross product of two edge vectors of
a face: the square of twice its area. -/
def faceCrossSq (m : MeshR) (f : ℕ × ℕ × ℕ) : ℝ :=
  let a := vertexAtR m f.1
  let b := vertexAtR m f.2.1
  let c := vertexAtR m f.2.2
  let ux := b.x - a.x
  let uy := b.y - a.y
  let uz := b.z - a.z
  let vx := c.x - a.x
  let vy := c.y - a.y
  let vz := c.z - a.z
  (uy * vz - uz * vy) ^ 2 + (uz * vx - ux * vz) ^ 2 +
    (ux * vy - uy * vx) ^ 2

/-- trimesh `area_faces`: half the norm of the edge cross product. -/
noncomputable def faceAreaR (m : MeshR) (f : ℕ × ℕ × ℕ) : ℝ :=
  Real.sqrt (faceCrossSq m f) / 2

/-- trimesh `Trimesh.centroid`:
`np.average(self.triangles_center, axis=0, weights=self.area_faces)`,
falling back to `self.triangles_center.mean(axis=0)` when the weights
sum to zero (np.average raises there and trimesh catches it). -/
noncomputable def trimeshCentroid (m : MeshR) : Vec3R :=
  let A := (m.faces.map (faceAreaR m)).sum
  if A = 0 then
    ⟨listMeanR (m.faces.map (fun f => (triCenterR m f).x)),
      listMeanR (m.faces.map (fun f => (triCenterR m f).y)),
      listMeanR (m.faces.map (fun f => (triCenterR m f).z))⟩
  else
    ⟨(m.faces.map (fun f => faceAreaR m f * (triCenterR m f).x)).sum / A,
      (m.faces.map (fun f => faceAreaR m f * (triCenterR m f).y)).sum / A,
      (m.faces.map (fun f => faceAreaR m f * (triCenterR m f).z)).sum / A⟩

/-- Subtract a fixed vector from every vertex. -/
def subMeshR (t : Vec3R) (m : MeshR) : MeshR :=
  ⟨m.vertices.map (fun v => ⟨v.x - t.x, v.y - t.y, v.z - t.z⟩), m.faces⟩

/-- `mesh.vertices -= mesh.centroid` with the faithful centroid. -/
noncomputable def centerMeshR (m : MeshR) : MeshR :=
  subMeshR (trimeshCentroid m) m

/-- `mesh.vertices /= max_dim` over ℝ. -/
noncomputable def scaleMeshR (d : ℝ) (m : MeshR) : MeshR :=
  ⟨m.vertices.map (fun v => ⟨v.x / d, v.y / d, v.z / d⟩), m.faces⟩

/-- `normalize_mesh` of src/render.py lines 50-72 over the real-valued
mesh, subtracting the faithful area-weighted `trimeshCentroid`; the
control flow is identical to `normalize_mesh_run` above. -/
noncomputable def normalize_mesh_real (m : MeshR) : Option MeshR :=
  if m.vertices.length < 3 then none
  else
    let m1 := centerMeshR m
    let max_dim := if maxExtentR m1 = 0 then 1 else maxExtentR m1
    if max_dim < 1 / 1000000 then none
    else some (scaleMeshR max_dim m1)

/-- A planar mesh whose face areas are unevenly distributed over its
vertices: one large triangle (area 8) and one zero-area sliver of
three collinear vertices far from it.  Its surface centroid (4/3, 4/3, 0)
and its mean vertex position (20/3, 2/3, 0) differ. -/
def skewMesh : MeshR :=
  ⟨[⟨0, 0, 0⟩, ⟨4, 0, 0⟩, ⟨0, 4, 0⟩, ⟨10, 0, 0⟩, ⟨12, 0, 0⟩, ⟨14, 0, 0⟩],
    [(0, 1, 2), (3, 4, 5)]⟩

/-- The output the code produces on `skewMesh`: centered at the
surface centroid and divided by the extent 14. -/
noncomputable def skewNorm : MeshR :=
  ⟨[⟨-2/21, -2/21, 0⟩, ⟨4/21, -2/21, 0⟩, ⟨-2/21, 4/21, 0⟩,
      ⟨13/21, -2/21, 0⟩, ⟨16/21, -2/21, 0⟩, ⟨19/21, -2/21, 0⟩],
    [(0, 1, 2), (3, 4, 5)]⟩

/-! Helper lemmas about list maxima, minima, sums and means. -/

theorem foldl_max_map (f : ℚ → ℚ) (hf : ∀ a b, f (max a b) = max (f a) (f b)) :
    ∀ (l : List ℚ) (a : ℚ), (l.map f).foldl max (f a) = f (l.foldl max a) := by
  intro l
  induction l with
  | nil => intro a; rfl
  | cons x xs ih =>
    intro a
    simp only [List.map_cons, List.foldl_cons]
    rw [← hf a x, ih (max a x)]

theorem foldl_min_map (f : ℚ → ℚ) (hf : ∀ a b, f (min a b) = min (f a) (f b)) :
    ∀ (l : List ℚ) (a : ℚ), (l.map f).foldl min (f a) = f (l.foldl min a) := by
  intro l
  induction l with
  | nil => intro a; rfl
  | cons x xs ih =>
    intro a
    simp only [List.map_cons, List.foldl_cons]
    rw [← hf a x, ih (min a x)]

theorem listMax_map (f : ℚ → ℚ) (hf : ∀ a b, f (max a b) = max (f a) (f b))
    (l : List ℚ) (hl : l ≠ []) : listMax (l.map f) = f (listMax l) := by
  cases l with
  | nil => exact absurd rfl hl
  | cons x xs =>
    simp only [List.map_cons, listMax]
    exact foldl_max_map f hf xs x

theorem listMin_map (f : ℚ → ℚ) (hf : ∀ a b, f (min a b) = min (f a) (f b))
    (l : List ℚ) (hl : l ≠ []) : listMin (l.map f) = f (listMin l) := by
  cases l with
  | nil => exact absurd rfl hl
  | cons x xs =>
    simp only [List.map_cons, listMin]
    exact foldl_min_map f hf xs x

theorem axisExtent_map_sub (l : List ℚ) (c : ℚ) (hl : l ≠ []) :
    axisExtent (l.map (fun q => q - c)) = axisExtent l := by
  unfold axisExtent
  rw [listMax_map (fun q => q - c) (fun a b => (max_sub_sub_right a b c).symm) l hl,
    listMin_map (fun q => q - c) (fun a b => (min_sub_sub_right a b c).symm) l hl]
  ring

theorem axisExtent_map_div (l : List ℚ) (d : ℚ) (hd : 0 ≤ d) (hl : l ≠ []) :
    axisExtent (l.map (fun q => q / d)) = axisExtent l / d := by
  unfold axisExtent
  rw [listMax_map (fun q => q / d) (fun a b => (max_div_div_right hd a b).symm) l hl,
    listMin_map (fun q => q / d) (fun a b => (min_div_div_right hd a b).symm) l hl]
  ring

theorem sum_map_sub (l : List ℚ) (c : ℚ) :
    (l.map (fun q => q - c)).sum = l.sum - l.length * c := by
  induction l with
  | nil => simp
  | cons x xs ih =>
    simp only [List.map_cons, List.sum_cons, List.length_cons, ih]
    push_cast
    ring

theorem sum_map_div (l : List ℚ) (d : ℚ) :
    (l.map (fun q => q / d)).sum = l.sum / d := by
  induction l with
  | nil => simp
  | cons x xs ih =>
    simp only [List.map_cons, List.sum_cons, ih, add_div]

theorem length_cast_ne_zero (l : List ℚ) (hl : l ≠ []) :
    (l.length : ℚ) ≠ 0 := by
  exact_mod_cast Nat.pos_iff_ne_zero.mp (List.length_pos.mpr hl)

theorem listMean_map_sub (l : List ℚ) (c : ℚ) (hl : l ≠ []) :
    listMean (l.map (fun q => q - c)) = listMean l - c := by
  unfold listMean
  rw [List.length_map, sum_map_sub, sub_div,
    mul_div_cancel_left₀ c (length_cast_ne_zero l hl)]

theorem listMean_map_div (l : List ℚ) (d : ℚ) :
    listMean (l.map (fun q => q / d)) = listMean l / d := by
  unfold listMean
  rw [List.length_map, sum_map_div, div_right_comm]

theorem le_foldl_max (l : List ℚ) (a : ℚ) :
    a ≤ l.foldl max a ∧ ∀ b ∈ l, b ≤ l.foldl max a := by
  induction l generalizing a with
  | nil => simp
  | cons x xs ih =>
    refine ⟨le_trans (le_max_left a x) (ih (max a x)).1, ?_⟩
    intro b hb
    rcases List.mem_cons.mp hb with rfl | hb
    · exact le_trans (le_max_right a b) (ih (max a b)).1
    · exact (ih (max a x)).2 b hb

theorem foldl_min_le (l : List ℚ) (a : ℚ) :
    l.foldl min a ≤ a ∧ ∀ b ∈ l, l.foldl min a ≤ b := by
  induction l generalizing a with
  | nil => simp
  | cons x xs ih =>
    refine ⟨le_trans (ih (min a x)).1 (min_le_left a x), ?_⟩
    intro b hb
    rcases List.mem_cons.mp hb with rfl | hb
    · exact le_trans (ih (min a b)).1 (min_le_right a b)
    · exact (ih (min a x)).2 b hb

theorem mem_le_listMax (l : List ℚ) : ∀ b ∈ l, b ≤ listMax l := by
  cases l with
  | nil => intro b hb; cases hb
  | cons x xs =>
    intro b hb
    rcases List.mem_cons.mp hb with rfl | hb
    · exact (le_foldl_max xs b).1
    · exact (le_foldl_max xs x).2 b hb

theorem listMin_le_mem (l : List ℚ) : ∀ b ∈ l, listMin l ≤ b := by
  cases l with
  | nil => intro b hb; cases hb
  | cons x xs =>
    intro b hb
    rcases List.mem_cons.mp hb with rfl | hb
    · exact (foldl_min_le xs b).1
    · exact (foldl_min_le xs x).2 b hb

theorem axisExtent_nonneg (l : List ℚ) (hl : l ≠ []) : 0 ≤ axisExtent l := by
  cases l with
  | nil => exact absurd rfl hl
  | cons x xs =>
    have h1 : x ≤ listMax (x :: xs) := mem_le_listMax _ x (List.mem_cons_self x xs)
    have h2 : listMin (x :: xs) ≤ x := listMin_le_mem _ x (List.mem_cons_self x xs)
    unfold axisExtent
    linarith

theorem sum_of_const (l : List ℚ) (v : ℚ) (h : ∀ b ∈ l, b = v) :
    l.sum = l.length * v := by
  induction l with
  | nil => simp
  | cons x xs ih =>
    have hx : x = v := h x (List.mem_cons_self x xs)
    have hxs : ∀ b ∈ xs, b = v := fun b hb => h b (List.mem_cons_of_mem x hb)
    simp only [List.sum_cons, List.length_cons, ih hxs, hx]
    push_cast
    ring

theorem listMean_of_const (l : List ℚ) (v : ℚ) (h : ∀ b ∈ l, b = v)
    (hl : l ≠ []) : listMean l = v := by
  unfold listMean
  rw [sum_of_const l v h, mul_comm,
    mul_div_cancel_right₀ v (length_cast_ne_zero l hl)]

theorem allconst_of_axisExtent_zero (l : List ℚ) (hl : l ≠ [])
    (h : axisExtent l = 0) : ∀ b ∈ l, b = listMean l := by
  have hmaxmin : listMax l = listMin l := by
    unfold axisExtent at h
    linarith
  have hconst : ∀ b ∈ l, b = listMin l := fun b hb =>
    le_antisymm (hmaxmin ▸ mem_le_listMax l b hb) (listMin_le_mem l b hb)
  intro b hb
  rw [listMean_of_const l (listMin l) hconst hl]
  exact hconst b hb

/-! Mesh-level lemmas about centering, scaling and normalization. -/

theorem coords_centerMesh_x (m : Mesh) :
    coords Vec3.x (centerMesh m) =
      (coords Vec3.x m).map (fun q => q - (centroid m).x) := by
  simp only [coords, centerMesh, List.map_map]
  rfl

theorem coords_centerMesh_y (m : Mesh) :
    coords Vec3.y (centerMesh m) =
      (coords Vec3.y m).map (fun q => q - (centroid m).y) := by
  simp only [coords, centerMesh, List.map_map]
  rfl

theorem coords_centerMesh_z (m : Mesh) :
    coords Vec3.z (centerMesh m) =
      (coords Vec3.z m).map (fun q => q - (centroid m).z) := by
  simp only [coords, centerMesh, List.map_map]
  rfl

theorem coords_scaleMesh_x (d : ℚ) (m : Mesh) :
    coords Vec3.x (scaleMesh d m) = (coords Vec3.x m).map (fun q => q / d) := by
  simp only [coords, scaleMesh, List.map_map]
  rfl

theorem coords_scaleMesh_y (d : ℚ) (m : Mesh) :
    coords Vec3.y (scaleMesh d m) = (coords Vec3.y m).map (fun q => q / d) := by
  simp only [coords, scaleMesh, List.map_map]
  rfl

theorem coords_scaleMesh_z (d : ℚ) (m : Mesh) :
    coords Vec3.z (scaleMesh d m) = (coords Vec3.z m).map (fun q => q / d) := by
  simp only [coords, scaleMesh, List.map_map]
  rfl

theorem coords_ne_nil (g : Vec3 → ℚ) (m : Mesh) (hm : m.vertices ≠ []) :
    coords g m ≠ [] := by
  simp only [coords, ne_eq, List.map_eq_nil_iff]
  exact hm

theorem vertices_centerMesh_length (m : Mesh) :
    (centerMesh m).vertices.length = m.vertices.length := by
  simp [centerMesh]

theorem vertices_scaleMesh_length (d : ℚ) (m : Mesh) :
    (scaleMesh d m).vertices.length = m.vertices.length := by
  simp [scaleMesh]

theorem maxExtent_centerMesh (m : Mesh) (hm : m.vertices ≠ []) :
    maxExtent (centerMesh m) = maxExtent m := by
  unfold maxExtent
  rw [coords_centerMesh_x, coords_centerMesh_y, coords_centerMesh_z,
    axisExtent_map_sub _ _ (coords_ne_nil Vec3.x m hm),
    axisExtent_map_sub _ _ (coords_ne_nil Vec3.y m hm),
    axisExtent_map_sub _ _ (coords_ne_nil Vec3.z m hm)]

theorem maxExtent_scaleMesh (d : ℚ) (hd : 0 ≤ d) (m : Mesh)
    (hm : m.vertices ≠ []) :
    maxExtent (scaleMesh d m) = maxExtent m / d := by
  unfold maxExtent
  rw [coords_scaleMesh_x, coords_scaleMesh_y, coords_scaleMesh_z,
    axisExtent_map_div _ _ hd (coords_ne_nil Vec3.x m hm),
    axisExtent_map_div _ _ hd (coords_ne_nil Vec3.y m hm),
    axisExtent_map_div _ _ hd (coords_ne_nil Vec3.z m hm),
    max_div_div_right hd, max_div_div_right hd]

theorem centroid_centerMesh (m : Mesh) (hm : m.vertices ≠ []) :
    centroid (centerMesh m) = ⟨0, 0, 0⟩ := by
  unfold centroid
  rw [coords_centerMesh_x, coords_centerMesh_y, coords_centerMesh_z,
    listMean_map_sub _ _ (coords_ne_nil Vec3.x m hm),
    listMean_map_sub _ _ (coords_ne_nil Vec3.y m hm),
    listMean_map_sub _ _ (coords_ne_nil Vec3.z m hm)]
  simp [centroid]

theorem centroid_scaleMesh (d : ℚ) (m : Mesh) :
    centroid (scaleMesh d m) =
      ⟨(centroid m).x / d, (centroid m).y / d, (centroid m).z / d⟩ := by
  unfold centroid
  rw [coords_scaleMesh_x, coords_scaleMesh_y, coords_scaleMesh_z,
    listMean_map_div, listMean_map_div, listMean_map_div]

theorem maxExtent_nonneg (m : Mesh) (hm : m.vertices ≠ []) :
    0 ≤ maxExtent m := by
  unfold maxExtent
  exact le_trans (axisExtent_nonneg _ (coords_ne_nil Vec3.x m hm))
    (le_max_left _ _)

theorem scaleMesh_one (m : Mesh) : scaleMesh 1 m = m := by
  unfold scaleMesh
  have h : ∀ v ∈ m.vertices, (⟨v.x / 1, v.y / 1, v.z / 1⟩ : Vec3) = v := by
    intro v _
    cases v
    simp
  rw [List.map_congr_left h, List.map_id']

theorem centerMesh_of_centroid_zero (m : Mesh) (hc : centroid m = ⟨0, 0, 0⟩) :
    centerMesh m = m := by
  unfold centerMesh
  rw [hc]
  have h : ∀ v ∈ m.vertices, (⟨v.x - (⟨0, 0, 0⟩ : Vec3).x,
      v.y - (⟨0, 0, 0⟩ : Vec3).y, v.z - (⟨0, 0, 0⟩ : Vec3).z⟩ : Vec3) = v := by
    intro v _
    cases v
    simp
  rw [List.map_congr_left h, List.map_id']

theorem normalize_mesh_run_def (m : Mesh) :
    normalize_mesh_run m =
      if m.vertices.length < 3 then (m, none)
      else if (if maxExtent (centerMesh m) = 0 then 1
          else maxExtent (centerMesh m)) < 1 / 1000000 then
        (centerMesh m, none)
      else
        (scaleMesh (if maxExtent (centerMesh m) = 0 then 1
            else maxExtent (centerMesh m)) (centerMesh m),
          some (scaleMesh (if maxExtent (centerMesh m) = 0 then 1
            else maxExtent (centerMesh m)) (centerMesh m))) := rfl

theorem normalize_mesh_some_shape (m m' : Mesh)
    (h : normalize_mesh m = some m') :
    ¬ m.vertices.length < 3 ∧
      ((maxExtent (centerMesh m) = 0 ∧ m' = scaleMesh 1 (centerMesh m)) ∨
        (maxExtent (centerMesh m) ≠ 0 ∧
          ¬ maxExtent (centerMesh m) < 1 / 1000000 ∧
          m' = scaleMesh (maxExtent (centerMesh m)) (centerMesh m))) := by
  unfold normalize_mesh at h
  rw [normalize_mesh_run_def] at h
  by_cases h3 : m.vertices.length < 3
  · rw [if_pos h3] at h
    simp at h
  · rw [if_neg h3] at h
    refine ⟨h3, ?_⟩
    by_cases h0 : maxExtent (centerMesh m) = 0
    · rw [if_pos h0, if_neg (by norm_num : ¬ (1 : ℚ) < 1 / 1000000)] at h
      left
      exact ⟨h0, (Option.some_inj.mp h).symm⟩
    · rw [if_neg h0] at h
      by_cases h6 : maxExtent (centerMesh m) < 1 / 1000000
      · rw [if_pos h6] at h
        simp at h
      · rw [if_neg h6] at h
        right
        exact ⟨h0, h6, (Option.some_inj.mp h).symm⟩

theorem normalize_mesh_fixed (m : Mesh) (h3 : ¬ m.vertices.length < 3)
    (hc : centroid m = ⟨0, 0, 0⟩) (he : maxExtent m = 1 ∨ maxExtent m = 0) :
    normalize_mesh m = some m := by
  have hcen : centerMesh m = m := centerMesh_of_centroid_zero m hc
  have hd : (if maxExtent (centerMesh m) = 0 then 1
      else maxExtent (centerMesh m)) = 1 := by
    rw [hcen]
    rcases he with h | h <;> simp [h]
  unfold normalize_mesh
  rw [normalize_mesh_run_def, if_neg h3, hd,
    if_neg (by norm_num : ¬ (1 : ℚ) < 1 / 1000000), hcen, scaleMesh_one]

theorem foldl_max_mem (l : List ℚ) : ∀ a : ℚ, l.foldl max a ∈ a :: l := by
  induction l with
  | nil => intro a; simp
  | cons x xs ih =>
    intro a
    simp only [List.foldl_cons]
    rcases List.mem_cons.mp (ih (max a x)) with h1 | h1
    · rw [h1]
      rcases max_choice a x with h2 | h2 <;> rw [h2] <;> simp
    · exact List.mem_cons_of_mem _ (List.mem_cons_of_mem _ h1)

theorem foldl_min_mem (l : List ℚ) : ∀ a : ℚ, l.foldl min a ∈ a :: l := by
  induction l with
  | nil => intro a; simp
  | cons x xs ih =>
    intro a
    simp only [List.foldl_cons]
    rcases List.mem_cons.mp (ih (min a x)) with h1 | h1
    · rw [h1]
      rcases min_choice a x with h2 | h2 <;> rw [h2] <;> simp
    · exact List.mem_cons_of_mem _ (List.mem_cons_of_mem _ h1)

theorem listMax_mem (l : List ℚ) (hl : l ≠ []) : listMax l ∈ l := by
  cases l with
  | nil => exact absurd rfl hl
  | cons x xs => exact foldl_max_mem xs x

theorem listMin_mem (l : List ℚ) (hl : l ≠ []) : listMin l ∈ l := by
  cases l with
  | nil => exact absurd rfl hl
  | cons x xs => exact foldl_min_mem xs x

theorem axisExtent_of_const (l : List ℚ) (v : ℚ) (h : ∀ b ∈ l, b = v)
    (hl : l ≠ []) : axisExtent l = 0 := by
  unfold axisExtent
  rw [h _ (listMax_mem l hl), h _ (listMin_mem l hl), sub_self]

theorem coords_const_zero (g : Vec3 → ℚ) (hg : g ⟨0, 0, 0⟩ = 0) (m : Mesh)
    (h : ∀ w ∈ m.vertices, w = ⟨0, 0, 0⟩) : ∀ q ∈ coords g m, q = 0 := by
  intro q hq
  obtain ⟨v, hv, rfl⟩ := List.mem_map.mp hq
  rw [h v hv, hg]

theorem centroid_of_all_zero (m : Mesh) (hm : m.vertices ≠ [])
    (h : ∀ w ∈ m.vertices, w = ⟨0, 0, 0⟩) : centroid m = ⟨0, 0, 0⟩ := by
  unfold centroid
  rw [listMean_of_const _ 0 (coords_const_zero Vec3.x rfl m h)
      (coords_ne_nil Vec3.x m hm),
    listMean_of_const _ 0 (coords_const_zero Vec3.y rfl m h)
      (coords_ne_nil Vec3.y m hm),
    listMean_of_const _ 0 (coords_const_zero Vec3.z rfl m h)
      (coords_ne_nil Vec3.z m hm)]

theorem maxExtent_of_all_zero (m : Mesh) (hm : m.vertices ≠ [])
    (h : ∀ w ∈ m.vertices, w = ⟨0, 0, 0⟩) : maxExtent m = 0 := by
  unfold maxExtent
  rw [axisExtent_of_const _ 0 (coords_const_zero Vec3.x rfl m h)
      (coords_ne_nil Vec3.x m hm),
    axisExtent_of_const _ 0 (coords_const_zero Vec3.y rfl m h)
      (coords_ne_nil Vec3.y m hm),
    axisExtent_of_const _ 0 (coords_const_zero Vec3.z rfl m h)
      (coords_ne_nil Vec3.z m hm)]
  simp

theorem vertices_eq_centroid_of_maxExtent_zero (m : Mesh)
    (hm : m.vertices ≠ []) (h0 : maxExtent m = 0) :
    ∀ v ∈ m.vertices, v = centroid m := by
  have hx : axisExtent (coords Vec3.x m) = 0 := by
    have h1 := axisExtent_nonneg _ (coords_ne_nil Vec3.x m hm)
    have h2 : axisExtent (coords Vec3.x m) ≤ maxExtent m := le_max_left _ _
    linarith
  have hy : axisExtent (coords Vec3.y m) = 0 := by
    have h1 := axisExtent_nonneg _ (coords_ne_nil Vec3.y m hm)
    have h2 : axisExtent (coords Vec3.y m) ≤ maxExtent m :=
      le_trans (le_max_left _ _) (le_max_right _ _)
    linarith
  have hz : axisExtent (coords Vec3.z m) = 0 := by
    have h1 := axisExtent_nonneg _ (coords_ne_nil Vec3.z m hm)
    have h2 : axisExtent (coords Vec3.z m) ≤ maxExtent m :=
      le_trans (le_max_right _ _) (le_max_right _ _)
    linarith
  intro v hv
  have ex := allconst_of_axisExtent_zero _ (coords_ne_nil Vec3.x m hm) hx
    v.x (List.mem_map_of_mem Vec3.x hv)
  have ey := allconst_of_axisExtent_zero _ (coords_ne_nil Vec3.y m hm) hy
    v.y (List.mem_map_of_mem Vec3.y hv)
  have ez := allconst_of_axisExtent_zero _ (coords_ne_nil Vec3.z m hm) hz
    v.z (List.mem_map_of_mem Vec3.z hv)
  cases v
  simp only [centroid, Vec3.mk.injEq]
  exact ⟨ex, ey, ez⟩

theorem centerMesh_zero_of_maxExtent_zero (m : Mesh) (hm : m.vertices ≠ [])
    (h0 : maxExtent m = 0) :
    ∀ w ∈ (centerMesh m).vertices, w = ⟨0, 0, 0⟩ := by
  intro w hw
  obtain ⟨v, hv, rfl⟩ := List.mem_map.mp hw
  have hvc := vertices_eq_centroid_of_maxExtent_zero m hm h0 v hv
  simp [hvc]

theorem vertices_centerMesh_ne (m : Mesh) (hm : m.vertices ≠ []) :
    (centerMesh m).vertices ≠ [] := by
  simp only [centerMesh, ne_eq, List.map_eq_nil_iff]
  exact hm

/-! The claims.  Claim C1 is settled further below, after the
real-valued development of the faithful area-weighted centroid. -/

/-- Claim C5: normalization is idempotent: whenever `normalize_mesh`
succeeds, running it again on the result returns that result exactly. -/
theorem normalize_mesh_idempotent (m m' : Mesh)
    (h : normalize_mesh m = some m') : normalize_mesh m' = some m' := by
  obtain ⟨h3, hcases⟩ := normalize_mesh_some_shape m m' h
  have hm : m.vertices ≠ [] := fun hnil => h3 (by simp [hnil])
  have hmc : (centerMesh m).vertices ≠ [] := vertices_centerMesh_ne m hm
  rcases hcases with ⟨h0, hm'⟩ | ⟨hne, h6, hm'⟩
  · have hEq : m' = centerMesh m := by rw [hm', scaleMesh_one]
    have h0' : maxExtent m = 0 := by
      rw [← maxExtent_centerMesh m hm]
      exact h0
    apply normalize_mesh_fixed
    · rw [hEq, vertices_centerMesh_length]
      exact h3
    · rw [hEq]
      exact centroid_centerMesh m hm
    · right
      rw [hEq]
      exact h0
  · have hpos : 0 < maxExtent (centerMesh m) :=
      (maxExtent_nonneg (centerMesh m) hmc).lt_of_ne (Ne.symm hne)
    apply normalize_mesh_fixed
    · rw [hm', vertices_scaleMesh_length, vertices_centerMesh_length]
      exact h3
    · rw [hm', centroid_scaleMesh, centroid_centerMesh m hm]
      simp
    · left
      rw [hm', maxExtent_scaleMesh _ hpos.le _ hmc, div_self hpos.ne']

/-- Witness for C5: normalizing an already-normalized triangle returns
it unchanged. -/
theorem normalize_mesh_idempotent_witness :
    normalize_mesh ⟨[⟨-1/2, -1/6, 0⟩, ⟨1/2, -1/6, 0⟩, ⟨0, 1/3, 0⟩], []⟩ =
      some ⟨[⟨-1/2, -1/6, 0⟩, ⟨1/2, -1/6, 0⟩, ⟨0, 1/3, 0⟩], []⟩ :=
  normalize_mesh_idempotent ⟨[⟨0, 0, 0⟩, ⟨2, 0, 0⟩, ⟨1, 1, 0⟩], []⟩ _
    (by norm_num [normalize_mesh, normalize_mesh_run, centerMesh, centroid,
      coords, listMean, maxExtent, axisExtent, listMax, listMin, scaleMesh])

/-- Claim C3 (code bug): at a geometry whose bounding extent is exactly
zero — three identical vertices — `normalize_mesh` returns the centered
geometry instead of failing: `max(mesh.extents) or 1.0` replaces the
zero extent by 1.0 before the near-zero check, which therefore never
fires. -/
theorem normalize_mesh_zero_extent_accepted :
    maxExtent ⟨[⟨1, 2, 3⟩, ⟨1, 2, 3⟩, ⟨1, 2, 3⟩], []⟩ = 0 ∧
      normalize_mesh ⟨[⟨1, 2, 3⟩, ⟨1, 2, 3⟩, ⟨1, 2, 3⟩], []⟩ =
        some ⟨[⟨0, 0, 0⟩, ⟨0, 0, 0⟩, ⟨0, 0, 0⟩], []⟩ := by
  constructor
  · norm_num [maxExtent, axisExtent, listMax, listMin, coords]
  · norm_num [normalize_mesh, normalize_mesh_run, centerMesh, centroid,
      coords, listMean, maxExtent, axisExtent, listMax, listMin, scaleMesh]

/-- Claim C10: `normalize_mesh` returns `None` for every mesh with
fewer than 3 vertices, including non-empty 1- and 2-vertex meshes. -/
theorem normalize_mesh_rejects_fewer_than_three (m : Mesh)
    (h : m.vertices.length < 3) : normalize_mesh m = none := by
  unfold normalize_mesh
  rw [normalize_mesh_run_def, if_pos h]

/-- Witness for C10 at a non-empty 2-vertex mesh. -/
theorem normalize_mesh_rejects_fewer_than_three_witness :
    normalize_mesh ⟨[⟨0, 0, 0⟩, ⟨1, 1, 1⟩], []⟩ = none :=
  normalize_mesh_rejects_fewer_than_three ⟨[⟨0, 0, 0⟩, ⟨1, 1, 1⟩], []⟩
    (by simp)

/-- Claim C6: when the pymeshfix repair raises, `repair_mesh` returns
the original geometry object unchanged — same vertices, same faces. -/
theorem repair_mesh_exception_returns_original (m : Mesh) :
    repair_mesh none m = m ∧ (repair_mesh none m).vertices = m.vertices ∧
      (repair_mesh none m).faces = m.faces :=
  ⟨rfl, rfl, rfl⟩

/-- Claim C2: the backend chain keeps the primary backend's result
exactly when the quality verdict on it passes (present and not mostly
white) and otherwise advances to the secondary backend's result; in
particular a failed primary with a succeeding secondary yields the
secondary's image. -/
theorem render_chain_advances_iff_reject (p s : Option Image) :
    render_chain p s = (if quality_pass p = true then p else s) ∧
      render_chain none s = s := by
  constructor
  · cases p with
    | none => simp [render_chain, quality_pass]
    | some img =>
      cases hw : mostly_white img <;>
        simp [render_chain, quality_pass, hw]
  · rfl

/-- Counterexample for C4: an image whose mean intensity is exactly 240
is accepted, because the code tests `np.mean(img_cv) > 240` strictly. -/
theorem quality_pass_accepts_mean_exactly_240 :
    mean_intensity ([240] : Image) = 240 ∧
      quality_pass (some ([240] : Image)) = true := by
  constructor
  · norm_num [mean_intensity]
  · norm_num [quality_pass, mostly_white, mean_intensity]

/-- Claim C4 as amended: the validator rejects an image exactly when its
mean intensity is strictly greater than 240, accepts mean ≤ 240, and
always rejects an absent image. -/
theorem quality_validator_threshold_strict (img : Image) :
    quality_pass none = false ∧
      (mean_intensity img > 240 → quality_pass (some img) = false) ∧
      (mean_intensity img ≤ 240 → quality_pass (some img) = true) := by
  refine ⟨rfl, fun h => ?_, fun h => ?_⟩
  · simp only [quality_pass, mostly_white]
    rw [decide_eq_true h]
    rfl
  · simp only [quality_pass, mostly_white]
    rw [decide_eq_false (not_lt.mpr h)]
    rfl

/-- Witness for C4's amended theorem at concrete all-250 and all-100
single-pixel images. -/
theorem quality_validator_threshold_strict_witness :
    quality_pass (some ([250] : Image)) = false ∧
      quality_pass (some ([100] : Image)) = true :=
  ⟨(quality_validator_threshold_strict [250]).2.1 (by norm_num [mean_intensity]),
    (quality_validator_threshold_strict [100]).2.2 (by norm_num [mean_intensity])⟩

/-- Claim C7 (code bug): a concrete 11-file batch where only "a3" fails.
The batch writes the whole first block of 10 attempted files — the
failed "a3" included — to processed.txt, drops the trailing successful
"b", and the resume pass therefore retries exactly ["b"]: it reprocesses
the success "b" and never retries the failure "a3". -/
theorem batch_run_mixes_outcomes :
    batch_main (fun f => !(f == "a3"))
        ["a0", "a1", "a2", "a3", "a4", "a5", "a6", "a7", "a8", "a9", "b"] =
      (["a0", "a1", "a2", "a3", "a4", "a5", "a6", "a7", "a8", "a9"],
        ["a3"]) ∧
      resume_files
        ["a0", "a1", "a2", "a3", "a4", "a5", "a6", "a7", "a8", "a9", "b"]
        ["a0", "a1", "a2", "a3", "a4", "a5", "a6", "a7", "a8", "a9"] =
        ["b"] := by
  decide

/-- Counterexample for C8: the dataset pass of
src/scripts/render_pipeline.py selects "model.obj" but skips
"model.OBJ" — suffix matching there is case-sensitive. -/
theorem pipeline_selects_mesh_case_sensitive :
    pipeline_selects_mesh "model.obj" = true ∧
      pipeline_selects_mesh "model.OBJ" = false := by
  decide

/-- Claim C8 as amended: the single-file visualizer and the batch
discovery filter route by the lowercased suffix, so files whose
suffixes differ only in case are routed identically there; the
scripts/render_pipeline.py dataset pass, however, matches the suffix
case-sensitively. -/
theorem suffix_routing_case_insensitive_amended (f g : String)
    (h : lowerStr (fileSuffix f) = lowerStr (fileSuffix g)) :
    (visualize_route f = visualize_route g ∧
        is_cad_file f = is_cad_file g) ∧
      pipeline_selects_mesh "model.obj" = true ∧
      pipeline_selects_mesh "model.OBJ" = false := by
  refine ⟨⟨?_, ?_⟩, by decide, by decide⟩
  · simp only [visualize_route, h]
  · simp only [is_cad_file, h]

/-- Witness for C8's amended theorem at the pair "a.PLY" / "a.ply". -/
theorem suffix_routing_case_insensitive_amended_witness :
    visualize_route "a.PLY" = visualize_route "a.ply" ∧
      is_cad_file "a.PLY" = is_cad_file "a.ply" :=
  (suffix_routing_case_insensitive_amended "a.PLY" "a.ply" (by decide)).1

/-- Counterexample for C9: `normalize_mesh` modifies the caller's mesh
object in place — after the call the input object's vertices are not
the original ones. -/
theorem normalize_mesh_run_mutates_input :
    (normalize_mesh_run ⟨[⟨0, 0, 0⟩, ⟨3, 0, 0⟩, ⟨0, 3, 0⟩], []⟩).1 ≠
      ⟨[⟨0, 0, 0⟩, ⟨3, 0, 0⟩, ⟨0, 3, 0⟩], []⟩ := by
  norm_num [normalize_mesh_run, centerMesh, centroid, coords, listMean,
    maxExtent, axisExtent, listMax, listMin, scaleMesh, Mesh.mk.injEq,
    Vec3.mk.injEq]

/-- Claim C9 as amended: `normalize_mesh` normalizes the input geometry
in place and returns that same object, so after a successful call the
caller's mesh object equals the returned normalized mesh (ownership is
transferred forward by returning the mutated object). -/
theorem normalize_mesh_run_returns_mutated_object (m m' : Mesh)
    (h : (normalize_mesh_run m).2 = some m') :
    (normalize_mesh_run m).1 = m' := by
  rw [normalize_mesh_run_def] at h ⊢
  by_cases h3 : m.vertices.length < 3
  · rw [if_pos h3] at h
    simp at h
  · rw [if_neg h3] at h ⊢
    by_cases h6 : (if maxExtent (centerMesh m) = 0 then 1
        else maxExtent (centerMesh m)) < 1 / 1000000
    · rw [if_pos h6] at h
      simp at h
    · rw [if_neg h6] at h ⊢
      simpa using h

/-- Witness for C9's amended theorem at a concrete triangle. -/
theorem normalize_mesh_run_returns_mutated_object_witness :
    (normalize_mesh_run ⟨[⟨0, 0, 0⟩, ⟨3, 0, 0⟩, ⟨0, 3, 0⟩], []⟩).1 =
      ⟨[⟨-1/3, -1/3, 0⟩, ⟨2/3, -1/3, 0⟩, ⟨-1/3, 2/3, 0⟩], []⟩ :=
  normalize_mesh_run_returns_mutated_object
    ⟨[⟨0, 0, 0⟩, ⟨3, 0, 0⟩, ⟨0, 3, 0⟩], []⟩ _
    (by norm_num [normalize_mesh_run, centerMesh, centroid, coords,
      listMean, maxExtent, axisExtent, listMax, listMin, scaleMesh])

/-! Helper lemmas over ℝ for the faithful centroid model. -/

theorem foldl_max_map_r (f : ℝ → ℝ) (hf : ∀ a b, f (max a b) = max (f a) (f b)) :
    ∀ (l : List ℝ) (a : ℝ), (l.map f).foldl max (f a) = f (l.foldl max a) := by
  intro l
  induction l with
  | nil => intro a; rfl
  | cons x xs ih =>
    intro a
    simp only [List.map_cons, List.foldl_cons]
    rw [← hf a x, ih (max a x)]

theorem foldl_min_map_r (f : ℝ → ℝ) (hf : ∀ a b, f (min a b) = min (f a) (f b)) :
    ∀ (l : List ℝ) (a : ℝ), (l.map f).foldl min (f a) = f (l.foldl min a) := by
  intro l
  induction l with
  | nil => intro a; rfl
  | cons x xs ih =>
    intro a
    simp only [List.map_cons, List.foldl_cons]
    rw [← hf a x, ih (min a x)]

theorem listMaxR_map (f : ℝ → ℝ) (hf : ∀ a b, f (max a b) = max (f a) (f b))
    (l : List ℝ) (hl : l ≠ []) : listMaxR (l.map f) = f (listMaxR l) := by
  cases l with
  | nil => exact absurd rfl hl
  | cons x xs =>
    simp only [List.map_cons, listMaxR]
    exact foldl_max_map_r f hf xs x

theorem listMinR_map (f : ℝ → ℝ) (hf : ∀ a b, f (min a b) = min (f a) (f b))
    (l : List ℝ) (hl : l ≠ []) : listMinR (l.map f) = f (listMinR l) := by
  cases l with
  | nil => exact absurd rfl hl
  | cons x xs =>
    simp only [List.map_cons, listMinR]
    exact foldl_min_map_r f hf xs x

theorem axisExtentR_map_sub (l : List ℝ) (c : ℝ) (hl : l ≠ []) :
    axisExtentR (l.map (fun q => q - c)) = axisExtentR l := by
  unfold axisExtentR
  rw [listMaxR_map (fun q => q - c) (fun a b => (max_sub_sub_right a b c).symm) l hl,
    listMinR_map (fun q => q - c) (fun a b => (min_sub_sub_right a b c).symm) l hl]
  ring

theorem axisExtentR_map_div (l : List ℝ) (d : ℝ) (hd : 0 ≤ d) (hl : l ≠ []) :
    axisExtentR (l.map (fun q => q / d)) = axisExtentR l / d := by
  unfold axisExtentR
  rw [listMaxR_map (fun q => q / d) (fun a b => (max_div_div_right hd a b).symm) l hl,
    listMinR_map (fun q => q / d) (fun a b => (min_div_div_right hd a b).symm) l hl]
  ring

theorem sum_map_sub_r (l : List ℝ) (c : ℝ) :
    (l.map (fun q => q - c)).sum = l.sum - l.length * c := by
  induction l with
  | nil => simp
  | cons x xs ih =>
    simp only [List.map_cons, List.sum_cons, List.length_cons, ih]
    push_cast
    ring

theorem sum_map_div_r (l : List ℝ) (d : ℝ) :
    (l.map (fun q => q / d)).sum = l.sum / d := by
  induction l with
  | nil => simp
  | cons x xs ih =>
    simp only [List.map_cons, List.sum_cons, ih, add_div]

theorem length_cast_ne_zero_r (l : List ℝ) (hl : l ≠ []) :
    (l.length : ℝ) ≠ 0 := by
  exact_mod_cast Nat.pos_iff_ne_zero.mp (List.length_pos.mpr hl)

theorem listMeanR_map_sub (l : List ℝ) (c : ℝ) (hl : l ≠ []) :
    listMeanR (l.map (fun q => q - c)) = listMeanR l - c := by
  unfold listMeanR
  rw [List.length_map, sum_map_sub_r, sub_div,
    mul_div_cancel_left₀ c (length_cast_ne_zero_r l hl)]

theorem listMeanR_map_div (l : List ℝ) (d : ℝ) :
    listMeanR (l.map (fun q => q / d)) = listMeanR l / d := by
  unfold listMeanR
  rw [List.length_map, sum_map_div_r, div_right_comm]

theorem sum_map_sub_pair_r {α : Type} (l : List α) (f g : α → ℝ) :
    (l.map (fun a => f a - g a)).sum = (l.map f).sum - (l.map g).sum := by
  induction l with
  | nil => simp
  | cons x xs ih =>
    simp only [List.map_cons, List.sum_cons, ih]
    ring

theorem coordsR_subMeshR_x (t : Vec3R) (m : MeshR) :
    coordsR Vec3R.x (subMeshR t m) =
      (coordsR Vec3R.x m).map (fun q => q - t.x) := by
  simp only [coordsR, subMeshR, List.map_map]
  rfl

theorem coordsR_subMeshR_y (t : Vec3R) (m : MeshR) :
    coordsR Vec3R.y (subMeshR t m) =
      (coordsR Vec3R.y m).map (fun q => q - t.y) := by
  simp only [coordsR, subMeshR, List.map_map]
  rfl

theorem coordsR_subMeshR_z (t : Vec3R) (m : MeshR) :
    coordsR Vec3R.z (subMeshR t m) =
      (coordsR Vec3R.z m).map (fun q => q - t.z) := by
  simp only [coordsR, subMeshR, List.map_map]
  rfl

theorem coordsR_scaleMeshR_x (d : ℝ) (m : MeshR) :
    coordsR Vec3R.x (scaleMeshR d m) =
      (coordsR Vec3R.x m).map (fun q => q / d) := by
  simp only [coordsR, scaleMeshR, List.map_map]
  rfl

theorem coordsR_scaleMeshR_y (d : ℝ) (m : MeshR) :
    coordsR Vec3R.y (scaleMeshR d m) =
      (coordsR Vec3R.y m).map (fun q => q / d) := by
  simp only [coordsR, scaleMeshR, List.map_map]
  rfl

theorem coordsR_scaleMeshR_z (d : ℝ) (m : MeshR) :
    coordsR Vec3R.z (scaleMeshR d m) =
      (coordsR Vec3R.z m).map (fun q => q / d) := by
  simp only [coordsR, scaleMeshR, List.map_map]
  rfl

theorem coordsR_ne_nil (g : Vec3R → ℝ) (m : MeshR) (hm : m.vertices ≠ []) :
    coordsR g m ≠ [] := by
  simp only [coordsR, ne_eq, List.map_eq_nil_iff]
  exact hm

theorem vertices_subMeshR_length (t : Vec3R) (m : MeshR) :
    (subMeshR t m).vertices.length = m.vertices.length := by
  simp [subMeshR]

theorem vertices_scaleMeshR_length (d : ℝ) (m : MeshR) :
    (scaleMeshR d m).vertices.length = m.vertices.length := by
  simp [scaleMeshR]

theorem maxExtentR_subMeshR (t : Vec3R) (m : MeshR) (hm : m.vertices ≠ []) :
    maxExtentR (subMeshR t m) = maxExtentR m := by
  unfold maxExtentR
  rw [coordsR_subMeshR_x, coordsR_subMeshR_y, coordsR_subMeshR_z,
    axisExtentR_map_sub _ _ (coordsR_ne_nil Vec3R.x m hm),
    axisExtentR_map_sub _ _ (coordsR_ne_nil Vec3R.y m hm),
    axisExtentR_map_sub _ _ (coordsR_ne_nil Vec3R.z m hm)]

theorem maxExtentR_scaleMeshR (d : ℝ) (hd : 0 ≤ d) (m : MeshR)
    (hm : m.vertices ≠ []) :
    maxExtentR (scaleMeshR d m) = maxExtentR m / d := by
  unfold maxExtentR
  rw [coordsR_scaleMeshR_x, coordsR_scaleMeshR_y, coordsR_scaleMeshR_z,
    axisExtentR_map_div _ _ hd (coordsR_ne_nil Vec3R.x m hm),
    axisExtentR_map_div _ _ hd (coordsR_ne_nil Vec3R.y m hm),
    axisExtentR_map_div _ _ hd (coordsR_ne_nil Vec3R.z m hm),
    max_div_div_right hd, max_div_div_right hd]

theorem getD_map_of_lt {α β : Type} (f : α → β) (l : List α) (i : ℕ)
    (hi : i < l.length) (d : α) (d2 : β) :
    (l.map f).getD i d2 = f (l.getD i d) := by
  rw [List.getD_eq_getElem?_getD, List.getD_eq_getElem?_getD,
    List.getElem?_eq_getElem (by simpa using hi),
    List.getElem?_eq_getElem hi, List.getElem_map,
    Option.getD_some, Option.getD_some]

theorem vertexAtR_subMeshR (t : Vec3R) (m : MeshR) (i : ℕ)
    (hi : i < m.vertices.length) :
    vertexAtR (subMeshR t m) i =
      ⟨(vertexAtR m i).x - t.x, (vertexAtR m i).y - t.y,
        (vertexAtR m i).z - t.z⟩ := by
  unfold vertexAtR subMeshR
  exact getD_map_of_lt
    (fun v => (⟨v.x - t.x, v.y - t.y, v.z - t.z⟩ : Vec3R))
    m.vertices i hi ⟨0, 0, 0⟩ ⟨0, 0, 0⟩

theorem vertexAtR_scaleMeshR (d : ℝ) (m : MeshR) (i : ℕ)
    (hi : i < m.vertices.length) :
    vertexAtR (scaleMeshR d m) i =
      ⟨(vertexAtR m i).x / d, (vertexAtR m i).y / d,
        (vertexAtR m i).z / d⟩ := by
  unfold vertexAtR scaleMeshR
  exact getD_map_of_lt
    (fun v => (⟨v.x / d, v.y / d, v.z / d⟩ : Vec3R))
    m.vertices i hi ⟨0, 0, 0⟩ ⟨0, 0, 0⟩

theorem triCenterR_subMeshR (t : Vec3R) (m : MeshR) (f : ℕ × ℕ × ℕ)
    (h1 : f.1 < m.vertices.length) (h2 : f.2.1 < m.vertices.length)
    (h3 : f.2.2 < m.vertices.length) :
    triCenterR (subMeshR t m) f =
      ⟨(triCenterR m f).x - t.x, (triCenterR m f).y - t.y,
        (triCenterR m f).z - t.z⟩ := by
  unfold triCenterR
  rw [vertexAtR_subMeshR t m _ h1, vertexAtR_subMeshR t m _ h2,
    vertexAtR_subMeshR t m _ h3]
  simp only [Vec3R.mk.injEq]
  refine ⟨by ring, by ring, by ring⟩

theorem triCenterR_scaleMeshR (d : ℝ) (m : MeshR) (f : ℕ × ℕ × ℕ)
    (h1 : f.1 < m.vertices.length) (h2 : f.2.1 < m.vertices.length)
    (h3 : f.2.2 < m.vertices.length) :
    triCenterR (scaleMeshR d m) f =
      ⟨(triCenterR m f).x / d, (triCenterR m f).y / d,
        (triCenterR m f).z / d⟩ := by
  unfold triCenterR
  rw [vertexAtR_scaleMeshR d m _ h1, vertexAtR_scaleMeshR d m _ h2,
    vertexAtR_scaleMeshR d m _ h3]
  simp only [Vec3R.mk.injEq]
  refine ⟨by ring, by ring, by ring⟩

theorem faceCrossSq_subMeshR (t : Vec3R) (m : MeshR) (f : ℕ × ℕ × ℕ)
    (h1 : f.1 < m.vertices.length) (h2 : f.2.1 < m.vertices.length)
    (h3 : f.2.2 < m.vertices.length) :
    faceCrossSq (subMeshR t m) f = faceCrossSq m f := by
  unfold faceCrossSq
  rw [vertexAtR_subMeshR t m _ h1, vertexAtR_subMeshR t m _ h2,
    vertexAtR_subMeshR t m _ h3]
  ring

theorem faceCrossSq_scaleMeshR (d : ℝ) (m : MeshR) (f : ℕ × ℕ × ℕ)
    (h1 : f.1 < m.vertices.length) (h2 : f.2.1 < m.vertices.length)
    (h3 : f.2.2 < m.vertices.length) :
    faceCrossSq (scaleMeshR d m) f = faceCrossSq m f / d ^ 4 := by
  unfold faceCrossSq
  rw [vertexAtR_scaleMeshR d m _ h1, vertexAtR_scaleMeshR d m _ h2,
    vertexAtR_scaleMeshR d m _ h3]
  field_simp
  ring

theorem faceCrossSq_nonneg (m : MeshR) (f : ℕ × ℕ × ℕ) :
    0 ≤ faceCrossSq m f := by
  unfold faceCrossSq
  positivity

theorem faceAreaR_subMeshR (t : Vec3R) (m : MeshR) (f : ℕ × ℕ × ℕ)
    (h1 : f.1 < m.vertices.length) (h2 : f.2.1 < m.vertices.length)
    (h3 : f.2.2 < m.vertices.length) :
    faceAreaR (subMeshR t m) f = faceAreaR m f := by
  unfold faceAreaR
  rw [faceCrossSq_subMeshR t m f h1 h2 h3]

theorem faceAreaR_scaleMeshR (d : ℝ) (hd : 0 < d) (m : MeshR)
    (f : ℕ × ℕ × ℕ) (h1 : f.1 < m.vertices.length)
    (h2 : f.2.1 < m.vertices.length) (h3 : f.2.2 < m.vertices.length) :
    faceAreaR (scaleMeshR d m) f = faceAreaR m f / d ^ 2 := by
  unfold faceAreaR
  rw [faceCrossSq_scaleMeshR d m f h1 h2 h3]
  have hq : 0 ≤ faceCrossSq m f := faceCrossSq_nonneg m f
  have h4 : faceCrossSq m f / d ^ 4 = faceCrossSq m f * (1 / d ^ 2) ^ 2 := by
    ring
  rw [h4, Real.sqrt_mul hq, Real.sqrt_sq (by positivity : (0:ℝ) ≤ 1 / d ^ 2)]
  ring

theorem trimeshCentroid_def (m : MeshR) :
    trimeshCentroid m =
      if (m.faces.map (faceAreaR m)).sum = 0 then
        ⟨listMeanR (m.faces.map (fun f => (triCenterR m f).x)),
          listMeanR (m.faces.map (fun f => (triCenterR m f).y)),
          listMeanR (m.faces.map (fun f => (triCenterR m f).z))⟩
      else
        ⟨(m.faces.map (fun f => faceAreaR m f * (triCenterR m f).x)).sum /
            (m.faces.map (faceAreaR m)).sum,
          (m.faces.map (fun f => faceAreaR m f * (triCenterR m f).y)).sum /
            (m.faces.map (faceAreaR m)).sum,
          (m.faces.map (fun f => faceAreaR m f * (triCenterR m f).z)).sum /
            (m.faces.map (faceAreaR m)).sum⟩ := rfl

theorem trimeshCentroid_subMeshR (t : Vec3R) (m : MeshR)
    (hne : m.faces ≠ [])
    (hfb : ∀ f ∈ m.faces, f.1 < m.vertices.length ∧
      f.2.1 < m.vertices.length ∧ f.2.2 < m.vertices.length) :
    trimeshCentroid (subMeshR t m) =
      ⟨(trimeshCentroid m).x - t.x, (trimeshCentroid m).y - t.y,
        (trimeshCentroid m).z - t.z⟩ := by
  have hfaces : (subMeshR t m).faces = m.faces := rfl
  have harea : ∀ f ∈ m.faces, faceAreaR (subMeshR t m) f = faceAreaR m f := by
    intro f hf
    obtain ⟨h1, h2, h3⟩ := hfb f hf
    exact faceAreaR_subMeshR t m f h1 h2 h3
  have hA : ((subMeshR t m).faces.map (faceAreaR (subMeshR t m))).sum =
      (m.faces.map (faceAreaR m)).sum := by
    rw [hfaces, List.map_congr_left harea]
  have hcx : (subMeshR t m).faces.map
        (fun f => (triCenterR (subMeshR t m) f).x) =
      (m.faces.map (fun f => (triCenterR m f).x)).map (fun q => q - t.x) := by
    rw [hfaces, List.map_map]
    refine List.map_congr_left ?_
    intro f hf
    obtain ⟨h1, h2, h3⟩ := hfb f hf
    rw [triCenterR_subMeshR t m f h1 h2 h3]
    rfl
  have hcy : (subMeshR t m).faces.map
        (fun f => (triCenterR (subMeshR t m) f).y) =
      (m.faces.map (fun f => (triCenterR m f).y)).map (fun q => q - t.y) := by
    rw [hfaces, List.map_map]
    refine List.map_congr_left ?_
    intro f hf
    obtain ⟨h1, h2, h3⟩ := hfb f hf
    rw [triCenterR_subMeshR t m f h1 h2 h3]
    rfl
  have hcz : (subMeshR t m).faces.map
        (fun f => (triCenterR (subMeshR t m) f).z) =
      (m.faces.map (fun f => (triCenterR m f).z)).map (fun q => q - t.z) := by
    rw [hfaces, List.map_map]
    refine List.map_congr_left ?_
    intro f hf
    obtain ⟨h1, h2, h3⟩ := hfb f hf
    rw [triCenterR_subMeshR t m f h1 h2 h3]
    rfl
  have hwx : (subMeshR t m).faces.map (fun f =>
        faceAreaR (subMeshR t m) f * (triCenterR (subMeshR t m) f).x) =
      m.faces.map (fun f =>
        faceAreaR m f * (triCenterR m f).x - t.x * faceAreaR m f) := by
    rw [hfaces]
    refine List.map_congr_left ?_
    intro f hf
    obtain ⟨h1, h2, h3⟩ := hfb f hf
    rw [faceAreaR_subMeshR t m f h1 h2 h3, triCenterR_subMeshR t m f h1 h2 h3]
    dsimp only
    ring
  have hwy : (subMeshR t m).faces.map (fun f =>
        faceAreaR (subMeshR t m) f * (triCenterR (subMeshR t m) f).y) =
      m.faces.map (fun f =>
        faceAreaR m f * (triCenterR m f).y - t.y * faceAreaR m f) := by
    rw [hfaces]
    refine List.map_congr_left ?_
    intro f hf
    obtain ⟨h1, h2, h3⟩ := hfb f hf
    rw [faceAreaR_subMeshR t m f h1 h2 h3, triCenterR_subMeshR t m f h1 h2 h3]
    dsimp only
    ring
  have hwz : (subMeshR t m).faces.map (fun f =>
        faceAreaR (subMeshR t m) f * (triCenterR (subMeshR t m) f).z) =
      m.faces.map (fun f =>
        faceAreaR m f * (triCenterR m f).z - t.z * faceAreaR m f) := by
    rw [hfaces]
    refine List.map_congr_left ?_
    intro f hf
    obtain ⟨h1, h2, h3⟩ := hfb f hf
    rw [faceAreaR_subMeshR t m f h1 h2 h3, triCenterR_subMeshR t m f h1 h2 h3]
    dsimp only
    ring
  have hmapne : m.faces.map (fun f => (triCenterR m f).x) ≠ [] := by
    simp only [ne_eq, List.map_eq_nil_iff]
    exact hne
  have hmapne2 : m.faces.map (fun f => (triCenterR m f).y) ≠ [] := by
    simp only [ne_eq, List.map_eq_nil_iff]
    exact hne
  have hmapne3 : m.faces.map (fun f => (triCenterR m f).z) ≠ [] := by
    simp only [ne_eq, List.map_eq_nil_iff]
    exact hne
  rw [trimeshCentroid_def (subMeshR t m), trimeshCentroid_def m, hA]
  by_cases hA0 : (m.faces.map (faceAreaR m)).sum = 0
  · rw [if_pos hA0, if_pos hA0]
    dsimp only
    simp only [Vec3R.mk.injEq]
    refine ⟨?_, ?_, ?_⟩
    · rw [hcx, listMeanR_map_sub _ _ hmapne]
    · rw [hcy, listMeanR_map_sub _ _ hmapne2]
    · rw [hcz, listMeanR_map_sub _ _ hmapne3]
  · rw [if_neg hA0, if_neg hA0]
    dsimp only
    simp only [Vec3R.mk.injEq]
    refine ⟨?_, ?_, ?_⟩
    · rw [hwx, sum_map_sub_pair_r m.faces
        (fun f => faceAreaR m f * (triCenterR m f).x)
        (fun f => t.x * faceAreaR m f),
        List.sum_map_mul_left, sub_div, mul_div_assoc, div_self hA0, mul_one]
    · rw [hwy, sum_map_sub_pair_r m.faces
        (fun f => faceAreaR m f * (triCenterR m f).y)
        (fun f => t.y * faceAreaR m f),
        List.sum_map_mul_left, sub_div, mul_div_assoc, div_self hA0, mul_one]
    · rw [hwz, sum_map_sub_pair_r m.faces
        (fun f => faceAreaR m f * (triCenterR m f).z)
        (fun f => t.z * faceAreaR m f),
        List.sum_map_mul_left, sub_div, mul_div_assoc, div_self hA0, mul_one]

theorem trimeshCentroid_scaleMeshR (d : ℝ) (hd : 0 < d) (m : MeshR)
    (hfb : ∀ f ∈ m.faces, f.1 < m.vertices.length ∧
      f.2.1 < m.vertices.length ∧ f.2.2 < m.vertices.length) :
    trimeshCentroid (scaleMeshR d m) =
      ⟨(trimeshCentroid m).x / d, (trimeshCentroid m).y / d,
        (trimeshCentroid m).z / d⟩ := by
  have hd2 : (d : ℝ) ^ 2 ≠ 0 := pow_ne_zero 2 hd.ne'
  have hfaces : (scaleMeshR d m).faces = m.faces := rfl
  have harea : ∀ f ∈ m.faces,
      faceAreaR (scaleMeshR d m) f = faceAreaR m f / d ^ 2 := by
    intro f hf
    obtain ⟨h1, h2, h3⟩ := hfb f hf
    exact faceAreaR_scaleMeshR d hd m f h1 h2 h3
  have hA : ((scaleMeshR d m).faces.map (faceAreaR (scaleMeshR d m))).sum =
      (m.faces.map (faceAreaR m)).sum / d ^ 2 := by
    rw [hfaces, List.map_congr_left harea,
      show m.faces.map (fun f => faceAreaR m f / d ^ 2) =
        (m.faces.map (faceAreaR m)).map (fun q => q / d ^ 2) from
        (List.map_map (fun q => q / d ^ 2) (faceAreaR m) m.faces).symm,
      sum_map_div_r]
  have hcx : (scaleMeshR d m).faces.map
        (fun f => (triCenterR (scaleMeshR d m) f).x) =
      (m.faces.map (fun f => (triCenterR m f).x)).map (fun q => q / d) := by
    rw [hfaces, List.map_map]
    refine List.map_congr_left ?_
    intro f hf
    obtain ⟨h1, h2, h3⟩ := hfb f hf
    rw [triCenterR_scaleMeshR d m f h1 h2 h3]
    rfl
  have hcy : (scaleMeshR d m).faces.map
        (fun f => (triCenterR (scaleMeshR d m) f).y) =
      (m.faces.map (fun f => (triCenterR m f).y)).map (fun q => q / d) := by
    rw [hfaces, List.map_map]
    refine List.map_congr_left ?_
    intro f hf
    obtain ⟨h1, h2, h3⟩ := hfb f hf
    rw [triCenterR_scaleMeshR d m f h1 h2 h3]
    rfl
  have hcz : (scaleMeshR d m).faces.map
        (fun f => (triCenterR (scaleMeshR d m) f).z) =
      (m.faces.map (fun f => (triCenterR m f).z)).map (fun q => q / d) := by
    rw [hfaces, List.map_map]
    refine List.map_congr_left ?_
    intro f hf
    obtain ⟨h1, h2, h3⟩ := hfb f hf
    rw [triCenterR_scaleMeshR d m f h1 h2 h3]
    rfl
  have hwx : (scaleMeshR d m).faces.map (fun f =>
        faceAreaR (scaleMeshR d m) f * (triCenterR (scaleMeshR d m) f).x) =
      (m.faces.map (fun f =>
        faceAreaR m f * (triCenterR m f).x)).map (fun q => q / d ^ 3) := by
    rw [hfaces, List.map_map]
    refine List.map_congr_left ?_
    intro f hf
    obtain ⟨h1, h2, h3⟩ := hfb f hf
    rw [faceAreaR_scaleMeshR d hd m f h1 h2 h3,
      triCenterR_scaleMeshR d m f h1 h2 h3]
    dsimp only [Function.comp]
    ring
  have hwy : (scaleMeshR d m).faces.map (fun f =>
        faceAreaR (scaleMeshR d m) f * (triCenterR (scaleMeshR d m) f).y) =
      (m.faces.map (fun f =>
        faceAreaR m f * (triCenterR m f).y)).map (fun q => q / d ^ 3) := by
    rw [hfaces, List.map_map]
    refine List.map_congr_left ?_
    intro f hf
    obtain ⟨h1, h2, h3⟩ := hfb f hf
    rw [faceAreaR_scaleMeshR d hd m f h1 h2 h3,
      triCenterR_scaleMeshR d m f h1 h2 h3]
    dsimp only [Function.comp]
    ring
  have hwz : (scaleMeshR d m).faces.map (fun f =>
        faceAreaR (scaleMeshR d m) f * (triCenterR (scaleMeshR d m) f).z) =
      (m.faces.map (fun f =>
        faceAreaR m f * (triCenterR m f).z)).map (fun q => q / d ^ 3) := by
    rw [hfaces, List.map_map]
    refine List.map_congr_left ?_
    intro f hf
    obtain ⟨h1, h2, h3⟩ := hfb f hf
    rw [faceAreaR_scaleMeshR d hd m f h1 h2 h3,
      triCenterR_scaleMeshR d m f h1 h2 h3]
    dsimp only [Function.comp]
    ring
  have key : ∀ S A : ℝ, A ≠ 0 → S / d ^ 3 / (A / d ^ 2) = S / A / d := by
    intro S A hA0
    field_simp
    ring
  rw [trimeshCentroid_def (scaleMeshR d m), trimeshCentroid_def m, hA]
  by_cases hA0 : (m.faces.map (faceAreaR m)).sum = 0
  · rw [if_pos (by rw [hA0, zero_div]), if_pos hA0]
    dsimp only
    simp only [Vec3R.mk.injEq]
    exact ⟨by rw [hcx, listMeanR_map_div], by rw [hcy, listMeanR_map_div],
      by rw [hcz, listMeanR_map_div]⟩
  · rw [if_neg (div_ne_zero hA0 hd2), if_neg hA0]
    dsimp only
    simp only [Vec3R.mk.injEq]
    exact ⟨by rw [hwx, sum_map_div_r, key _ _ hA0],
      by rw [hwy, sum_map_div_r, key _ _ hA0],
      by rw [hwz, sum_map_div_r, key _ _ hA0]⟩

theorem normalize_mesh_real_def (m : MeshR) :
    normalize_mesh_real m =
      if m.vertices.length < 3 then none
      else if (if maxExtentR (centerMeshR m) = 0 then 1
          else maxExtentR (centerMeshR m)) < 1 / 1000000 then none
      else some (scaleMeshR (if maxExtentR (centerMeshR m) = 0 then 1
        else maxExtentR (centerMeshR m)) (centerMeshR m)) := rfl

theorem normalize_mesh_real_some_shape (m m' : MeshR)
    (h : normalize_mesh_real m = some m') :
    ¬ m.vertices.length < 3 ∧
      ((maxExtentR (centerMeshR m) = 0 ∧ m' = scaleMeshR 1 (centerMeshR m)) ∨
        (maxExtentR (centerMeshR m) ≠ 0 ∧
          ¬ maxExtentR (centerMeshR m) < 1 / 1000000 ∧
          m' = scaleMeshR (maxExtentR (centerMeshR m)) (centerMeshR m))) := by
  rw [normalize_mesh_real_def] at h
  by_cases h3 : m.vertices.length < 3
  · rw [if_pos h3] at h
    simp at h
  · rw [if_neg h3] at h
    refine ⟨h3, ?_⟩
    by_cases h0 : maxExtentR (centerMeshR m) = 0
    · rw [if_pos h0, if_neg (by norm_num : ¬ (1 : ℝ) < 1 / 1000000)] at h
      left
      exact ⟨h0, (Option.some_inj.mp h).symm⟩
    · rw [if_neg h0] at h
      by_cases h6 : maxExtentR (centerMeshR m) < 1 / 1000000
      · rw [if_pos h6] at h
        simp at h
      · rw [if_neg h6] at h
        right
        exact ⟨h0, h6, (Option.some_inj.mp h).symm⟩

theorem verticesR_centerMeshR_ne (m : MeshR) (hm : m.vertices ≠ []) :
    (centerMeshR m).vertices ≠ [] := by
  simp only [centerMeshR, subMeshR, ne_eq, List.map_eq_nil_iff]
  exact hm

theorem faces_bounds_centerMeshR (m : MeshR)
    (hfb : ∀ f ∈ m.faces, f.1 < m.vertices.length ∧
      f.2.1 < m.vertices.length ∧ f.2.2 < m.vertices.length) :
    ∀ f ∈ (centerMeshR m).faces, f.1 < (centerMeshR m).vertices.length ∧
      f.2.1 < (centerMeshR m).vertices.length ∧
      f.2.2 < (centerMeshR m).vertices.length := by
  intro f hf
  have : (centerMeshR m).vertices.length = m.vertices.length := by
    simp [centerMeshR, subMeshR]
  rw [this]
  exact hfb f hf

/-! Concrete evaluation of the faithful pipeline on `skewMesh`. -/

theorem sqrt256 : Real.sqrt 256 = 16 := by
  rw [show (256 : ℝ) = 16 ^ 2 by norm_num]
  exact Real.sqrt_sq (by norm_num)

theorem skew_cs1 : faceCrossSq skewMesh (0, 1, 2) = 256 := by
  unfold faceCrossSq
  rw [show vertexAtR skewMesh (0, 1, 2).1 = ⟨0, 0, 0⟩ from rfl,
    show vertexAtR skewMesh (0, 1, 2).2.1 = ⟨4, 0, 0⟩ from rfl,
    show vertexAtR skewMesh (0, 1, 2).2.2 = ⟨0, 4, 0⟩ from rfl]
  norm_num

theorem skew_cs2 : faceCrossSq skewMesh (3, 4, 5) = 0 := by
  unfold faceCrossSq
  rw [show vertexAtR skewMesh (3, 4, 5).1 = ⟨10, 0, 0⟩ from rfl,
    show vertexAtR skewMesh (3, 4, 5).2.1 = ⟨12, 0, 0⟩ from rfl,
    show vertexAtR skewMesh (3, 4, 5).2.2 = ⟨14, 0, 0⟩ from rfl]
  norm_num

theorem skew_a1 : faceAreaR skewMesh (0, 1, 2) = 8 := by
  unfold faceAreaR
  rw [skew_cs1, sqrt256]
  norm_num

theorem skew_a2 : faceAreaR skewMesh (3, 4, 5) = 0 := by
  unfold faceAreaR
  rw [skew_cs2, Real.sqrt_zero]
  norm_num

theorem skew_c1 : triCenterR skewMesh (0, 1, 2) = ⟨4/3, 4/3, 0⟩ := by
  unfold triCenterR
  rw [show vertexAtR skewMesh (0, 1, 2).1 = ⟨0, 0, 0⟩ from rfl,
    show vertexAtR skewMesh (0, 1, 2).2.1 = ⟨4, 0, 0⟩ from rfl,
    show vertexAtR skewMesh (0, 1, 2).2.2 = ⟨0, 4, 0⟩ from rfl]
  simp only [Vec3R.mk.injEq]
  norm_num

theorem skew_c2 : triCenterR skewMesh (3, 4, 5) = ⟨12, 0, 0⟩ := by
  unfold triCenterR
  rw [show vertexAtR skewMesh (3, 4, 5).1 = ⟨10, 0, 0⟩ from rfl,
    show vertexAtR skewMesh (3, 4, 5).2.1 = ⟨12, 0, 0⟩ from rfl,
    show vertexAtR skewMesh (3, 4, 5).2.2 = ⟨14, 0, 0⟩ from rfl]
  simp only [Vec3R.mk.injEq]
  norm_num

/-- The surface centroid of `skewMesh`: the zero-area sliver contributes
no weight, so the centroid is the big triangle's center (4/3, 4/3, 0),
far from the mean vertex position (20/3, 2/3, 0). -/
theorem skew_centroid : trimeshCentroid skewMesh = ⟨4/3, 4/3, 0⟩ := by
  rw [trimeshCentroid_def,
    show skewMesh.faces = [(0, 1, 2), (3, 4, 5)] from rfl]
  simp only [List.map_cons, List.map_nil, List.sum_cons, List.sum_nil,
    skew_a1, skew_a2, skew_c1, skew_c2]
  rw [if_neg (by norm_num)]
  simp only [Vec3R.mk.injEq]
  norm_num

theorem skew_centered : centerMeshR skewMesh =
    ⟨[⟨-4/3, -4/3, 0⟩, ⟨8/3, -4/3, 0⟩, ⟨-4/3, 8/3, 0⟩,
        ⟨26/3, -4/3, 0⟩, ⟨32/3, -4/3, 0⟩, ⟨38/3, -4/3, 0⟩],
      [(0, 1, 2), (3, 4, 5)]⟩ := by
  unfold centerMeshR
  rw [skew_centroid]
  unfold subMeshR
  rw [show skewMesh.vertices =
    [⟨0, 0, 0⟩, ⟨4, 0, 0⟩, ⟨0, 4, 0⟩, ⟨10, 0, 0⟩, ⟨12, 0, 0⟩, ⟨14, 0, 0⟩]
      from rfl,
    show skewMesh.faces = [(0, 1, 2), (3, 4, 5)] from rfl]
  simp only [List.map_cons, List.map_nil, MeshR.mk.injEq, List.cons.injEq,
    Vec3R.mk.injEq, and_true, List.nil_eq]
  norm_num

theorem skew_extent : maxExtentR (centerMeshR skewMesh) = 14 := by
  rw [skew_centered]
  norm_num [maxExtentR, axisExtentR, listMaxR, listMinR, coordsR,
    max_def, min_def]

theorem skew_normalizes : normalize_mesh_real skewMesh = some skewNorm := by
  rw [normalize_mesh_real_def, skew_extent,
    if_neg (by norm_num [skewMesh] : ¬ skewMesh.vertices.length < 3),
    if_neg (by norm_num : (14 : ℝ) = 0 → False)]
  rw [if_neg (by norm_num : ¬ (14 : ℝ) < 1 / 1000000)]
  rw [skew_centered]
  unfold scaleMeshR skewNorm
  simp only [List.map_cons, List.map_nil, Option.some_inj, MeshR.mk.injEq,
    List.cons.injEq, Vec3R.mk.injEq, and_true, List.nil_eq]
  norm_num

theorem skew_vertex_mean : vertexMeanR skewNorm = ⟨8/21, -1/21, 0⟩ := by
  unfold vertexMeanR
  rw [show coordsR Vec3R.x skewNorm =
      [-2/21, 4/21, -2/21, 13/21, 16/21, 19/21] from rfl,
    show coordsR Vec3R.y skewNorm =
      [-2/21, -2/21, 4/21, -2/21, -2/21, -2/21] from rfl,
    show coordsR Vec3R.z skewNorm = [0, 0, 0, 0, 0, 0] from rfl]
  simp only [Vec3R.mk.injEq]
  norm_num [listMeanR]

/-- Counterexample for C1: on `skewMesh` — a valid, non-degenerate mesh
with unevenly distributed face areas — normalization succeeds, but the
mean vertex position of the output is (8/21, -1/21, 0), far from the
origin: the code drives trimesh's area-weighted surface centroid to the
origin, not the spec's "centroid (mean vertex position)". -/
theorem normalize_real_vertex_mean_off_origin :
    normalize_mesh_real skewMesh = some skewNorm ∧
      vertexMeanR skewNorm ≠ ⟨0, 0, 0⟩ := by
  refine ⟨skew_normalizes, ?_⟩
  rw [skew_vertex_mean]
  intro hcon
  have hx := congrArg Vec3R.x hcon
  norm_num at hx

/-- Claim C1 as amended: for every non-degenerate mesh (positive max
extent, nonempty in-bounds face list) on which the normalization of
src/render.py succeeds, the quantity the code actually subtracts —
trimesh's area-weighted surface centroid — is exactly the origin in
the output, and the maximum axis-aligned extent of the output is
exactly 1; the mean vertex position is in general not at the origin. -/
theorem normalize_real_surface_centroid_zero_extent_one (m m' : MeshR)
    (hdeg : 0 < maxExtentR m) (hne : m.faces ≠ [])
    (hfb : ∀ f ∈ m.faces, f.1 < m.vertices.length ∧
      f.2.1 < m.vertices.length ∧ f.2.2 < m.vertices.length)
    (h : normalize_mesh_real m = some m') :
    trimeshCentroid m' = ⟨0, 0, 0⟩ ∧ maxExtentR m' = 1 := by
  obtain ⟨h3, hcases⟩ := normalize_mesh_real_some_shape m m' h
  have hm : m.vertices ≠ [] := fun hnil => h3 (by simp [hnil])
  have hmc : (centerMeshR m).vertices ≠ [] := verticesR_centerMeshR_ne m hm
  have hEc : maxExtentR (centerMeshR m) = maxExtentR m := by
    unfold centerMeshR
    exact maxExtentR_subMeshR _ m hm
  rcases hcases with ⟨h0, _⟩ | ⟨hne0, h6, hm'⟩
  · rw [hEc] at h0
    exact absurd h0 hdeg.ne'
  · have hcc : trimeshCentroid (centerMeshR m) = ⟨0, 0, 0⟩ := by
      unfold centerMeshR
      rw [trimeshCentroid_subMeshR (trimeshCentroid m) m hne hfb]
      simp
    have hfb2 := faces_bounds_centerMeshR m hfb
    constructor
    · rw [hm', trimeshCentroid_scaleMeshR _ (by rw [hEc]; exact hdeg) _ hfb2,
        hcc]
      simp
    · rw [hm', hEc, maxExtentR_scaleMeshR _ hdeg.le _ hmc, hEc,
        div_self hdeg.ne']

/-- Witness for C1's amended theorem, exercised on `skewMesh`. -/
theorem normalize_real_surface_centroid_zero_extent_one_witness :
    trimeshCentroid skewNorm = ⟨0, 0, 0⟩ ∧ maxExtentR skewNorm = 1 :=
  normalize_real_surface_centroid_zero_extent_one skewMesh skewNorm
    (by norm_num [maxExtentR, axisExtentR, listMaxR, listMinR, coordsR,
      skewMesh, max_def, min_def])
    (by simp [skewMesh])
    (by decide)
    skew_normalizes
